import Mathlib

/-!
# SketchDDD — verification of the semantic-validator specification

This file gives a shallow embedding of the SketchDDD domain-modeling
validator and of the web editor's domain store, and proves the stated
properties about them.

The repository ships the validator's documentation, its language
specification and its UI callers, but the validator implementation itself
(the `sketchddd-core` crate and `web/src/components/validation/validationRules.ts`)
is not among the sources.  The validator definitions below are therefore
modelled from the specification text (sections 3, 4.3, 4.4, 4.6, 6 and 7 of
the spec); each such definition says so in its doc comment.  The domain
store (`web/src/stores/domainStore.ts`) is present in the sources and its
operations are embedded directly from the TypeScript code.
-/

namespace SketchDDD

/-- Modelled from the spec: diagnostic severity.  The output contract
(§6) uses "error" and "warning"; the web UI additionally renders an
"info" severity, so the model carries all three. -/
inductive Severity
  | error
  | warning
  | info
deriving DecidableEq, Repr

/-- Modelled from the spec: rank used when ordering by severity
(errors first, then warnings, then infos). -/
def sevRank : Severity → Nat
  | .error => 0
  | .warning => 1
  | .info => 2

/-- Modelled from the spec: the stable diagnostic codes named in the
spec's component design (§4.3, §4.4, §4.6) and error-code families (§6). -/
inductive DiagCode
  | EnumNoVariants
  | DuplicateVariant
  | UnknownVariantPayloadType
  | InvalidAggregateRoot
  | InvalidContainedEntity
  | UnreachableContainedEntity
  | LargeAggregate
  | UndefinedSourceContext
  | UndefinedTargetContext
  | MappingSourceNotFound
  | MappingTargetNotFound
  | MorphismMappingSourceNotFound
  | MorphismMappingTargetNotFound
  | MorphismMappingEndpointMismatch
  | InvalidIntegrationPattern
  | IncompleteContextMap
deriving DecidableEq, Repr

/-- Modelled from the spec: a source location of the output contract (§6):
`{ context, declarationName, line?, column? }`.  The parser (out of scope)
is what produces real line/column numbers; the model uses `line := 0` and
reuses `column` as the index of the offending item inside its declaration
(e.g. the occurrence index of a duplicate enum variant). -/
structure Location where
  context : String
  decl : String
  line : Nat
  column : Nat
deriving DecidableEq, Repr

/-- Modelled from the spec: one record of the diagnostic report (§6). -/
structure Diagnostic where
  code : DiagCode
  message : String
  severity : Severity
  location : Location
deriving DecidableEq, Repr

/-- Modelled from the spec: `isValid(DiagnosticReport) -> bool`, "true iff
no `error`-severity entries" (§6). -/
def isValid (report : List Diagnostic) : Bool :=
  !(report.any (fun d => d.severity == Severity.error))

/-- Sort key: source location first (context, declaration, line, column,
lexicographically), severity second (§7). -/
def diagKey (d : Diagnostic) :
    Lex (String × Lex (String × Lex (Nat × Lex (Nat × Nat)))) :=
  toLex (d.location.context,
    toLex (d.location.decl,
      toLex (d.location.line,
        toLex (d.location.column, sevRank d.severity))))

/-- The ordering on diagnostics used by the aggregator: by location first,
severity second. -/
def diagLE (a b : Diagnostic) : Prop :=
  diagKey a ≤ diagKey b

instance : DecidableRel diagLE := fun a b =>
  inferInstanceAs (Decidable (diagKey a ≤ diagKey b))

instance : IsTotal Diagnostic diagLE :=
  ⟨fun a b => le_total (diagKey a) (diagKey b)⟩

instance : IsTrans Diagnostic diagLE :=
  ⟨fun _ _ _ hab hbc => le_trans hab hbc⟩

/-! ## The graph model (modelled from spec §3)

The core crate that builds this structure is absent from the sources; the
types below follow the spec's data model: contexts owning named objects
and morphisms, enum (colimit) declarations, aggregate (limit-cone)
declarations, and cross-context functor declarations. -/

/-- Modelled from the spec: the variant tag of an Object (§3).  Only the
tags the validators below inspect are distinguished. -/
inductive ObjKind
  | primitive
  | entity
  | valueObject
  | enumeration
deriving DecidableEq, Repr

/-- Modelled from the spec: a named node of the graph (§3). -/
structure ObjectD where
  name : String
  kind : ObjKind
deriving DecidableEq, Repr

/-- Modelled from the spec: a directed named edge
`name: source → target` (§3). -/
structure MorphismD where
  name : String
  source : String
  target : String
deriving DecidableEq, Repr

/-- Modelled from the spec: a named injection of a colimit cocone —
a variant name with an optional payload type (§3). -/
structure VariantD where
  name : String
  payload : Option String
deriving DecidableEq, Repr

/-- Modelled from the spec: an enumeration declaration (§3, §4.4). -/
structure EnumD where
  name : String
  variants : List VariantD
deriving DecidableEq, Repr

/-- Modelled from the spec: an aggregate declaration — a root object name
and the names of the contained entities (§3, §4.3). -/
structure AggregateD where
  name : String
  root : String
  contains : List String
deriving DecidableEq, Repr

/-- Modelled from the spec: a bounded context owning objects, morphisms,
enums and aggregates (§3, §6 input contract). -/
structure ContextD where
  name : String
  objects : List ObjectD
  morphisms : List MorphismD
  enums : List EnumD
  aggregates : List AggregateD
deriving DecidableEq, Repr

/-- Modelled from the spec: one pair of an object- or morphism-mapping of
a context map (§3). -/
structure MappingPair where
  src : String
  tgt : String
deriving DecidableEq, Repr

/-- Modelled from the spec: a context-map (functor) declaration (§3, §4.6). -/
structure ContextMapD where
  name : String
  source : String
  target : String
  pattern : String
  objectMappings : List MappingPair
  morphismMappings : List MappingPair
deriving DecidableEq, Repr

/-- Modelled from the spec: the whole parsed model handed over by the
external parser (§6 input contract). -/
structure Model where
  contexts : List ContextD
  contextMaps : List ContextMapD
deriving DecidableEq, Repr

/-- Look an object up by name in a context (first declaration wins, §4.1). -/
def lookupObj (c : ContextD) (n : String) : Option ObjectD :=
  c.objects.find? (fun o => o.name == n)

/-- Look a morphism up by name in a context (first declaration wins, §4.1). -/
def lookupMor (c : ContextD) (n : String) : Option MorphismD :=
  c.morphisms.find? (fun m => m.name == n)

/-- Look a context up by name in the model. -/
def lookupCtx (m : Model) (n : String) : Option ContextD :=
  m.contexts.find? (fun c => c.name == n)

/-- Does `n` resolve to a declared Entity of context `c`? (§4.3). -/
def isEntityB (c : ContextD) (n : String) : Bool :=
  match lookupObj c n with
  | some o => o.kind == ObjKind.entity
  | none => false

/-! ## Reachability (modelled from spec §4.3, §9)

The spec prescribes a breadth-first search over the declared morphisms of
the aggregate's context, with a visited set so that cyclic morphism
graphs terminate (§9).  The search is embedded as bounded breadth-first
frontier expansion: `reachL E r n` holds every vertex discovered within
`n` expansion rounds from `r`, and `E.length + 1` rounds saturate, which
is proved below (`reachableB_iff`). -/

section Reach

variable {α : Type} [DecidableEq α]

/-- One breadth-first expansion round: keep the discovered vertices
(the visited set) and add every edge target whose edge source is already
discovered. -/
def stepR (E : List (α × α)) (s : List α) : List α :=
  s ++ (E.filter (fun e => decide (e.1 ∈ s))).map Prod.snd

/-- Vertices discovered within `n` expansion rounds from `root`. -/
def reachL (E : List (α × α)) (root : α) : Nat → List α
  | 0 => [root]
  | n + 1 => stepR E (reachL E root n)

/-- The breadth-first search of §4.3: is `x` reachable from `root` along
the edge list `E`?  `E.length + 1` rounds suffice to saturate. -/
def reachableB (E : List (α × α)) (root x : α) : Bool :=
  decide (x ∈ reachL E root (E.length + 1))

/-- `Reaches E root x`: there is a path of edges of `E` from `root`
to `x` (§3's Path, as the reflexive-transitive closure of the edges). -/
inductive Reaches (E : List (α × α)) (root : α) : α → Prop
  | refl : Reaches E root root
  | tail {x y : α} : Reaches E root x → (x, y) ∈ E → Reaches E root y

/-- The visited set after `n` rounds, as a finite set. -/
def reachS (E : List (α × α)) (root : α) (n : Nat) : Finset α :=
  (reachL E root n).toFinset

end Reach

/-! ## Colimit validator (modelled from spec §4.4) -/

/-- Message of a `DuplicateVariant` diagnostic; it names the variant. -/
def dupMsg (n : String) : String := "duplicate variant: " ++ n

/-- A `DuplicateVariant` diagnostic located (via `column`) at the
occurrence index `idx` of the variant inside the enum declaration. -/
def mkDup (ctxName declName varName : String) (idx : Nat) : Diagnostic :=
  { code := .DuplicateVariant, message := dupMsg varName, severity := .error,
    location := { context := ctxName, decl := declName, line := 0, column := idx } }

/-- An `EnumNoVariants` diagnostic (fatal, §4.4). -/
def mkNoVariants (ctxName declName : String) : Diagnostic :=
  { code := .EnumNoVariants, message := "enum has no variants",
    severity := .error,
    location := { context := ctxName, decl := declName, line := 0, column := 0 } }

/-- An `UnknownVariantPayloadType` diagnostic (§4.4). -/
def mkUnknownPayload (ctxName declName varName : String) : Diagnostic :=
  { code := .UnknownVariantPayloadType,
    message := "unknown payload type on variant: " ++ varName,
    severity := .error,
    location := { context := ctxName, decl := declName, line := 0, column := 0 } }

/-- Modelled from the spec: the pairwise-uniqueness check on variant
names (§4.4).  Walks the variant list keeping the names already seen;
a variant whose name was seen before (case-sensitive string equality)
yields a `DuplicateVariant` diagnostic located at that occurrence. -/
def dupDiags (cn en : String) : Nat → List String → List VariantD → List Diagnostic
  | _, _, [] => []
  | i, seen, v :: rest =>
    (if seen.contains v.name then [mkDup cn en v.name i] else [])
      ++ dupDiags cn en (i + 1) (v.name :: seen) rest

/-- Modelled from the spec: payload-type resolution of variants (§4.4). -/
def payloadDiags (c : ContextD) (e : EnumD) : List Diagnostic :=
  (e.variants.filter (fun v =>
      match v.payload with
      | some p => !(lookupObj c p).isSome
      | none => false)).map (fun v => mkUnknownPayload c.name e.name v.name)

/-- Modelled from the spec: the colimit (enum) validator of §4.4, absent
from the sources: non-empty variant list (`EnumNoVariants`, fatal),
pairwise-unique variant names (`DuplicateVariant`), resolvable payload
types (`UnknownVariantPayloadType`). -/
def checkEnum (c : ContextD) (e : EnumD) : List Diagnostic :=
  (if e.variants.isEmpty then [mkNoVariants c.name e.name] else [])
    ++ dupDiags c.name e.name 0 [] e.variants
    ++ payloadDiags c e

/-! ## Limit validator for aggregates (modelled from spec §4.3) -/

/-- The edges over which §4.3's reachability search runs: the morphisms
declared in the aggregate's own context. -/
def ctxEdges (c : ContextD) : List (String × String) :=
  c.morphisms.map (fun m => (m.source, m.target))

/-- Message of an `UnreachableContainedEntity` diagnostic; it names the
unreachable entity. -/
def unreachMsg (e : String) : String := "unreachable contained entity: " ++ e

/-- An `UnreachableContainedEntity` diagnostic for contained entity `e`. -/
def mkUnreach (c : ContextD) (a : AggregateD) (e : String) : Diagnostic :=
  { code := .UnreachableContainedEntity, message := unreachMsg e,
    severity := .error,
    location := { context := c.name, decl := a.name, line := 0, column := 0 } }

/-- An `InvalidAggregateRoot` diagnostic (§4.3). -/
def mkInvalidRoot (c : ContextD) (a : AggregateD) : Diagnostic :=
  { code := .InvalidAggregateRoot,
    message := "root does not resolve to a declared entity: " ++ a.root,
    severity := .error,
    location := { context := c.name, decl := a.name, line := 0, column := 0 } }

/-- An `InvalidContainedEntity` diagnostic (§4.3). -/
def mkInvalidContained (c : ContextD) (a : AggregateD) (e : String) : Diagnostic :=
  { code := .InvalidContainedEntity,
    message := "contained name does not resolve to a declared entity: " ++ e,
    severity := .error,
    location := { context := c.name, decl := a.name, line := 0, column := 0 } }

/-- The non-fatal `LargeAggregate` warning (§4.3). -/
def mkLarge (c : ContextD) (a : AggregateD) : Diagnostic :=
  { code := .LargeAggregate,
    message := "aggregate contains more than 5 entities",
    severity := .warning,
    location := { context := c.name, decl := a.name, line := 0, column := 0 } }

/-- Modelled from the spec: the aggregate part of the limit validator of
§4.3, absent from the sources.  Independently (§4): the root must resolve
to a declared Entity (`InvalidAggregateRoot`); every name in `contains`
must resolve to a declared Entity (`InvalidContainedEntity`); every
contained entity must be reachable from the root by the breadth-first
search over the context's morphisms (`UnreachableContainedEntity`);
aggregates exceeding 5 contained entities get the non-fatal
`LargeAggregate` warning. -/
def checkAggregate (c : ContextD) (a : AggregateD) : List Diagnostic :=
  (if isEntityB c a.root then [] else [mkInvalidRoot c a])
    ++ (a.contains.filter (fun e => !isEntityB c e)).map (mkInvalidContained c a)
    ++ (a.contains.filter (fun e =>
          !reachableB (ctxEdges c) a.root e)).map (mkUnreach c a)
    ++ (if decide (5 < a.contains.length) then [mkLarge c a] else [])

/-! ## Context-map (functor) validator (modelled from spec §4.6) -/

/-- The object mapping of a context map, as a partial function:
first matching pair wins. -/
def lookupMapping (l : List MappingPair) (a : String) : Option String :=
  (l.find? (fun p => p.src == a)).map (fun p => p.tgt)

/-- Render the mapped-target-so-far of an endpoint for the mismatch
message. -/
def showMapped : Option String → String
  | some s => s
  | none => "(unmapped)"

/-- Message of a `MorphismMappingEndpointMismatch` diagnostic: it names
the expected target and the actual mapped-target-so-far (§4.6,
scenario 3). -/
def mismatchMsg (expected : String) (actual : Option String) : String :=
  "expected " ++ expected ++ ", actual " ++ showMapped actual

/-- A `MorphismMappingEndpointMismatch` diagnostic for morphism mapping
`mm`, naming the expected and actual targets. -/
def mkMismatch (cm : ContextMapD) (mm : MappingPair)
    (expected : String) (actual : Option String) : Diagnostic :=
  { code := .MorphismMappingEndpointMismatch,
    message := mismatchMsg expected actual,
    severity := .error,
    location := { context := cm.name, decl := mm.src, line := 0, column := 0 } }

/-- A missing mapped source morphism (`f` not declared in A, §4.6). -/
def mkMorphSrcNotFound (cm : ContextMapD) (mm : MappingPair) : Diagnostic :=
  { code := .MorphismMappingSourceNotFound,
    message := "mapped morphism not declared in source context: " ++ mm.src,
    severity := .error,
    location := { context := cm.name, decl := mm.src, line := 0, column := 0 } }

/-- A missing mapped target morphism (`g` not declared in B, §4.6). -/
def mkMorphTgtNotFound (cm : ContextMapD) (mm : MappingPair) : Diagnostic :=
  { code := .MorphismMappingTargetNotFound,
    message := "mapped morphism not declared in target context: " ++ mm.tgt,
    severity := .error,
    location := { context := cm.name, decl := mm.src, line := 0, column := 0 } }

/-- Modelled from the spec: the per-morphism-mapping functor-law check of
§4.6, absent from the sources.  For `f → g` with `f : a1 → a2` in A and
`g : b1 → b2` in B, the mapping is valid only if the object mapping sends
`a1` to `b1` and `a2` to `b2`; each violated endpoint yields a
`MorphismMappingEndpointMismatch` naming the expected and actual
targets. -/
def checkMorphMapping (A B : ContextD) (cm : ContextMapD)
    (mm : MappingPair) : List Diagnostic :=
  match lookupMor A mm.src, lookupMor B mm.tgt with
  | some f, some g =>
      (if lookupMapping cm.objectMappings f.source == some g.source then []
       else [mkMismatch cm mm g.source (lookupMapping cm.objectMappings f.source)])
        ++ (if lookupMapping cm.objectMappings f.target == some g.target then []
            else [mkMismatch cm mm g.target (lookupMapping cm.objectMappings f.target)])
  | none, _ => [mkMorphSrcNotFound cm mm]
  | some _, none => [mkMorphTgtNotFound cm mm]

/-- A `MappingSourceNotFound` diagnostic (§4.6). -/
def mkMappingSrcNotFound (cm : ContextMapD) (om : MappingPair) : Diagnostic :=
  { code := .MappingSourceNotFound,
    message := "mapped object not declared in source context: " ++ om.src,
    severity := .error,
    location := { context := cm.name, decl := om.src, line := 0, column := 0 } }

/-- A `MappingTargetNotFound` diagnostic (§4.6). -/
def mkMappingTgtNotFound (cm : ContextMapD) (om : MappingPair) : Diagnostic :=
  { code := .MappingTargetNotFound,
    message := "mapped object not declared in target context: " ++ om.tgt,
    severity := .error,
    location := { context := cm.name, decl := om.src, line := 0, column := 0 } }

/-- Modelled from the spec: per-object-mapping checks of §4.6. -/
def checkObjMapping (A B : ContextD) (cm : ContextMapD)
    (om : MappingPair) : List Diagnostic :=
  (if (lookupObj A om.src).isSome then [] else [mkMappingSrcNotFound cm om])
    ++ (if (lookupObj B om.tgt).isSome then [] else [mkMappingTgtNotFound cm om])

/-- The eight recognized integration patterns of §3. -/
def validPattern (p : String) : Bool :=
  ["Partnership", "CustomerSupplier", "Conformist", "AntiCorruptionLayer",
   "SeparateWays", "PublishedLanguage", "OpenHostService",
   "SharedKernel"].contains p

/-- Helper for the undefined-context diagnostics of §4.6. -/
def mkUndefCtx (cm : ContextMapD) (code : DiagCode) (n : String) : Diagnostic :=
  { code := code, message := "undefined context: " ++ n, severity := .error,
    location := { context := cm.name, decl := cm.name, line := 0, column := 0 } }

/-- An `InvalidIntegrationPattern` diagnostic (§4.6). -/
def mkInvalidPattern (cm : ContextMapD) : Diagnostic :=
  { code := .InvalidIntegrationPattern,
    message := "unrecognized integration pattern: " ++ cm.pattern,
    severity := .error,
    location := { context := cm.name, decl := cm.name, line := 0, column := 0 } }

/-- The non-fatal `IncompleteContextMap` informational diagnostic (§4.6). -/
def mkIncomplete (cm : ContextMapD) : Diagnostic :=
  { code := .IncompleteContextMap,
    message := "object mapping does not cover all source objects",
    severity := .info,
    location := { context := cm.name, decl := cm.name, line := 0, column := 0 } }

/-- Modelled from the spec: the context-map (functor) validator of §4.6,
absent from the sources. -/
def checkContextMap (m : Model) (cm : ContextMapD) : List Diagnostic :=
  match lookupCtx m cm.source, lookupCtx m cm.target with
  | some A, some B =>
      (cm.objectMappings.flatMap (checkObjMapping A B cm))
        ++ (cm.morphismMappings.flatMap (checkMorphMapping A B cm))
        ++ (if validPattern cm.pattern then []
            else [mkInvalidPattern cm])
        ++ (if A.objects.all (fun o =>
                (lookupMapping cm.objectMappings o.name).isSome) then []
            else [mkIncomplete cm])
  | _, _ =>
      (if (lookupCtx m cm.source).isSome then []
       else [mkUndefCtx cm .UndefinedSourceContext cm.source])
        ++ (if (lookupCtx m cm.target).isSome then []
            else [mkUndefCtx cm .UndefinedTargetContext cm.target])

/-! ## The diagnostic aggregator (modelled from spec §2, §7) -/

/-- Modelled from the spec: all diagnostics collected from the validators
over the whole model, in declaration order. -/
def collectDiags (m : Model) : List Diagnostic :=
  (m.contexts.flatMap (fun c =>
      c.enums.flatMap (checkEnum c) ++ c.aggregates.flatMap (checkAggregate c)))
    ++ m.contextMaps.flatMap (checkContextMap m)

/-- Modelled from the spec: `validate(Model) -> DiagnosticReport` (§6) —
the full diagnostic list, returned in one shot, sorted by source location
first and severity second (§7). -/
def validate (m : Model) : List Diagnostic :=
  (collectDiags m).insertionSort diagLE

/-- Does diagnostic `d` report a duplicate of variant name `n`? -/
def pDup (n : String) (d : Diagnostic) : Bool :=
  d.code == DiagCode.DuplicateVariant && d.message == dupMsg n

/-- A context extended by one more declared morphism (the re-validation
scenario of §8: "adding any valid connecting morphism"). -/
def addMorphismD (c : ContextD) (g : MorphismD) : ContextD :=
  { c with morphisms := c.morphisms ++ [g] }

/-! ## Concrete models used by the spec's scenarios (§8) -/

/-- A declared entity object. -/
def entO (n : String) : ObjectD := { name := n, kind := ObjKind.entity }

/-- A declared morphism. -/
def morD (n s t : String) : MorphismD := { name := n, source := s, target := t }

/-- Scenario 4's aggregate: six distinct contained entities. -/
def aggSix : AggregateD :=
  { name := "Big", root := "R", contains := ["E1", "E2", "E3", "E4", "E5", "E6"] }

/-- Scenario 4's context: the root and six entities, each reachable from
the root by one declared morphism. -/
def ctxSix : ContextD :=
  { name := "Shop",
    objects := [entO "R", entO "E1", entO "E2", entO "E3", entO "E4",
                entO "E5", entO "E6"],
    morphisms := [morD "m1" "R" "E1", morD "m2" "R" "E2", morD "m3" "R" "E3",
                  morD "m4" "R" "E4", morD "m5" "R" "E5", morD "m6" "R" "E6"],
    enums := [],
    aggregates := [aggSix] }

/-- Scenario 2's enum: `enum Status = Pending | Pending`. -/
def enumStatus : EnumD :=
  { name := "Status",
    variants := [{ name := "Pending", payload := none },
                 { name := "Pending", payload := none }] }

/-- Scenario 2's context. -/
def ctxOrders : ContextD :=
  { name := "Orders", objects := [], morphisms := [], enums := [enumStatus],
    aggregates := [] }

/-- The reachability scenario's aggregate: root `Order`,
contains `Customer`. -/
def aggOrd : AggregateD :=
  { name := "OrderAgg", root := "Order", contains := ["Customer"] }

/-- The reachability scenario's context, before the connecting morphism
is added: no declared morphisms at all. -/
def ctxOrd : ContextD :=
  { name := "Sales", objects := [entO "Order", entO "Customer"],
    morphisms := [], enums := [], aggregates := [aggOrd] }

/-- The connecting morphism `customer: Order -> Customer` of scenario 1. -/
def morCustomer : MorphismD := morD "customer" "Order" "Customer"

/-- Scenario 3's source context A with `f: X -> Z`. -/
def ctxA : ContextD :=
  { name := "A", objects := [entO "X", entO "Z"],
    morphisms := [morD "f" "X" "Z"], enums := [], aggregates := [] }

/-- Scenario 3's target context B with `g: Y -> Q`. -/
def ctxB : ContextD :=
  { name := "B", objects := [entO "Y", entO "Q"],
    morphisms := [morD "g" "Y" "Q"], enums := [], aggregates := [] }

/-- Scenario 3's context map: object mapping `X -> Y` only, morphism
mapping `f -> g`; `Z -> Q` is absent from the object mapping. -/
def cmAB : ContextMapD :=
  { name := "M", source := "A", target := "B", pattern := "Partnership",
    objectMappings := [{ src := "X", tgt := "Y" }],
    morphismMappings := [{ src := "f", tgt := "g" }] }

/-- Scenario 3's whole model. -/
def modelAB : Model := { contexts := [ctxA, ctxB], contextMaps := [cmAB] }

/-- A lone warning-severity diagnostic. -/
def warnDiag : Diagnostic :=
  { code := .LargeAggregate, message := "w", severity := .warning,
    location := { context := "c", decl := "d", line := 0, column := 0 } }

/-! ## The web editor's domain store (embedded from
`web/src/stores/domainStore.ts`)

The store state is a JavaScript object tree; `Record<string, T>` objects
are embedded as association lists in key-insertion order, which is the
order `Object.keys` enumerates (the keys are UUID strings, never
integer-like).  `crypto.randomUUID()` results are passed in as explicit
arguments.  Only the state fields the store's domain actions read or
write are carried (UI booleans and the validation cache are omitted). -/

namespace Store

/-- `Field` from `web/src/types` (App.tsx). -/
structure Field where
  id : String
  name : String
  type : String
  optional : Bool
deriving DecidableEq, Repr

/-- `Omit<Field, 'id'>` — the argument of `addField`. -/
structure FieldInput where
  name : String
  type : String
  optional : Bool
deriving DecidableEq, Repr

/-- `EnumVariant` from `web/src/types`. -/
structure EnumVariant where
  id : String
  name : String
  payload : Option String
deriving DecidableEq, Repr

/-- `Omit<EnumVariant, 'id'>` — the argument of `addVariant`. -/
structure VariantInput where
  name : String
  payload : Option String
deriving DecidableEq, Repr

/-- Morphism cardinality from `web/src/types`. -/
inductive Cardinality
  | one
  | many
  | optionalCard
deriving DecidableEq, Repr

/-- `DomainNode` from `web/src/types`: the tagged union of node kinds
`entity | value | enum | aggregate | context`. -/
inductive DomainNode
  | entity (name : String) (fields : List Field)
  | value (name : String) (fields : List Field)
  | enum (name : String) (variants : List EnumVariant)
  | aggregate (name : String) (rootId : String) (memberIds : List String)
      (invariants : List String)
  | contextNode (name : String)
deriving DecidableEq, Repr

/-- A canvas position.  The claims never inspect coordinates, so the
TypeScript floats are carried as integers. -/
structure Position where
  x : Int
  y : Int
deriving DecidableEq, Repr

/-- One entry of `ContextData.nodes`: `{ node, position }`. -/
structure NodeEntry where
  node : DomainNode
  position : Position
deriving DecidableEq, Repr

/-- `Morphism` from `web/src/types`. -/
structure Morphism where
  id : String
  name : String
  sourceId : String
  targetId : String
  cardinality : Cardinality
deriving DecidableEq, Repr

/-- `ContextData` from `web/src/types`; `nodes` is a
`Record<string, ...>` embedded as an association list. -/
structure ContextData where
  id : String
  name : String
  nodes : List (String × NodeEntry)
  morphisms : List Morphism
deriving DecidableEq, Repr

/-- `ObjectMapping` from `web/src/types`. -/
structure ObjectMapping where
  sourceId : String
  targetId : String
deriving DecidableEq, Repr

/-- `ContextMap` from `web/src/types`. -/
structure ContextMap where
  id : String
  name : String
  sourceContextId : String
  targetContextId : String
  pattern : String
  mappings : List ObjectMapping
deriving DecidableEq, Repr

/-- The domain-relevant slice of `DomainState` from `domainStore.ts`. -/
structure DomainState where
  activeContextId : Option String
  contexts : List (String × ContextData)
  contextMaps : List ContextMap
  selectedNodeIds : List String
  selectedEdgeIds : List String
deriving DecidableEq, Repr

/-- `obj[k]` on a string-keyed record: first entry with key `k`. -/
def lookupKey {β : Type} : List (String × β) → String → Option β
  | [], _ => none
  | p :: r, k => if p.1 = k then some p.2 else lookupKey r k

/-- `delete obj[k]` on a string-keyed record. -/
def eraseKey {β : Type} : List (String × β) → String → List (String × β)
  | [], _ => []
  | p :: r, k => if p.1 = k then eraseKey r k else p :: eraseKey r k

/-- `obj[k] = v` on a string-keyed record whose key `k` is present. -/
def updateKey {β : Type} (l : List (String × β)) (k : String) (v : β) :
    List (String × β) :=
  l.map (fun p => if p.1 = k then (k, v) else p)

/-- `deleteNode(contextId, nodeId)` from `domainStore.ts` (lines
202–216): when the context exists, drop the node entry, drop every
morphism whose `sourceId` or `targetId` is the node, and drop the node
from the selection. -/
def deleteNode (s : DomainState) (contextId nodeId : String) : DomainState :=
  match lookupKey s.contexts contextId with
  | none => s
  | some context =>
    let context' : ContextData :=
      { context with
        nodes := eraseKey context.nodes nodeId,
        morphisms := context.morphisms.filter
          (fun m => !(m.sourceId == nodeId) && !(m.targetId == nodeId)) }
    { s with
      contexts := updateKey s.contexts contextId context',
      selectedNodeIds := s.selectedNodeIds.filter (fun i => !(i == nodeId)) }

/-- `deleteContext(contextId)` from `domainStore.ts` (lines 149–161):
drop the context, drop every context map touching it, and when the
deleted context was active, fall back to the first remaining context id
(or `null`). -/
def deleteContext (s : DomainState) (contextId : String) : DomainState :=
  let contexts' := eraseKey s.contexts contextId
  let contextMaps' := s.contextMaps.filter
    (fun m => !(m.sourceContextId == contextId) && !(m.targetContextId == contextId))
  let active' :=
    if s.activeContextId = some contextId then (contexts'.map Prod.fst).head?
    else s.activeContextId
  { s with
    contexts := contexts',
    contextMaps := contextMaps',
    activeContextId := active' }

/-- `addField(contextId, nodeId, field)` from `domainStore.ts` (lines
228–236): pushes the field (with a fresh id) only when the node exists
and its kind is `entity` or `value`. -/
def addField (s : DomainState) (contextId nodeId : String)
    (field : FieldInput) (newId : String) : DomainState :=
  match lookupKey s.contexts contextId with
  | none => s
  | some context =>
    match lookupKey context.nodes nodeId with
    | none => s
    | some entry =>
      match entry.node with
      | .entity n fs =>
        let fs' := fs ++ [{ id := newId, name := field.name,
                            type := field.type, optional := field.optional }]
        let entry' := { entry with node := DomainNode.entity n fs' }
        let context' := { context with
                          nodes := updateKey context.nodes nodeId entry' }
        { s with contexts := updateKey s.contexts contextId context' }
      | .value n fs =>
        let fs' := fs ++ [{ id := newId, name := field.name,
                            type := field.type, optional := field.optional }]
        let entry' := { entry with node := DomainNode.value n fs' }
        let context' := { context with
                          nodes := updateKey context.nodes nodeId entry' }
        { s with contexts := updateKey s.contexts contextId context' }
      | _ => s

/-- `addVariant(contextId, nodeId, variant)` from `domainStore.ts`
(lines 262–270): pushes the variant (with a fresh id) only when the node
exists and its kind is `enum`. -/
def addVariant (s : DomainState) (contextId nodeId : String)
    (variant : VariantInput) (newId : String) : DomainState :=
  match lookupKey s.contexts contextId with
  | none => s
  | some context =>
    match lookupKey context.nodes nodeId with
    | none => s
    | some entry =>
      match entry.node with
      | .enum n vs =>
        let vs' := vs ++ [{ id := newId, name := variant.name,
                            payload := variant.payload }]
        let entry' := { entry with node := DomainNode.enum n vs' }
        let context' := { context with
                          nodes := updateKey context.nodes nodeId entry' }
        { s with contexts := updateKey s.contexts contextId context' }
      | _ => s

/-- `state.contexts[contextId]?.nodes[nodeId]` — the node-entry access
shared by `addField` and `addVariant`. -/
def lookupNodeEntry (s : DomainState) (contextId nodeId : String) :
    Option NodeEntry :=
  match lookupKey s.contexts contextId with
  | none => none
  | some c => lookupKey c.nodes nodeId

/-- Is the node of a kind that carries `fields`
(`entity` or `value`)? -/
def isFieldNode : DomainNode → Bool
  | .entity _ _ => true
  | .value _ _ => true
  | _ => false

/-- Is the node of the `enum` kind? -/
def isEnumNode : DomainNode → Bool
  | .enum _ _ => true
  | _ => false

/-- Every morphism of every context references only node ids present in
that context — the referential invariant `deleteNode` maintains. -/
def morphismsConsistent (s : DomainState) : Prop :=
  ∀ p ∈ s.contexts, ∀ m ∈ p.2.morphisms,
    (lookupKey p.2.nodes m.sourceId).isSome ∧
      (lookupKey p.2.nodes m.targetId).isSome

/-- `activeContextId` is `null` or names an existing context — the
invariant `deleteContext` maintains. -/
def activeConsistent (s : DomainState) : Prop :=
  ∀ a, s.activeContextId = some a → (lookupKey s.contexts a).isSome

/-! Concrete store states for the witnesses. -/

/-- An entity node entry. -/
def nodeOrder : NodeEntry :=
  { node := DomainNode.entity "Order" [], position := { x := 0, y := 0 } }

/-- A second entity node entry. -/
def nodeCustomer : NodeEntry :=
  { node := DomainNode.entity "Customer" [], position := { x := 1, y := 0 } }

/-- An enum node entry. -/
def nodeStatus : NodeEntry :=
  { node := DomainNode.enum "Status"
      [{ id := "v1", name := "Pending", payload := none }],
    position := { x := 2, y := 0 } }

/-- A morphism connecting the two entity nodes. -/
def morCust : Morphism :=
  { id := "m1", name := "customer", sourceId := "n1", targetId := "n2",
    cardinality := Cardinality.one }

/-- A context holding the three nodes and the morphism. -/
def ctxStore : ContextData :=
  { id := "c1", name := "Orders",
    nodes := [("n1", nodeOrder), ("n2", nodeCustomer), ("n3", nodeStatus)],
    morphisms := [morCust] }

/-- A second, empty context. -/
def ctxStore2 : ContextData :=
  { id := "c2", name := "Billing", nodes := [], morphisms := [] }

/-- A context map between the two contexts. -/
def mapStore : ContextMap :=
  { id := "cm1", name := "M", sourceContextId := "c1", targetContextId := "c2",
    pattern := "Conformist", mappings := [] }

/-- A concrete store state. -/
def stateW : DomainState :=
  { activeContextId := some "c1",
    contexts := [("c1", ctxStore), ("c2", ctxStore2)],
    contextMaps := [mapStore],
    selectedNodeIds := ["n2"],
    selectedEdgeIds := [] }

end Store

/-! # Lemmas and theorems -/

lemma data_append_eq (s t : String) : (s ++ t).data = s.data ++ t.data := by
  cases s
  cases t
  rfl

lemma string_append_cancel {s t u : String} (h : s ++ t = s ++ u) : t = u := by
  have hd := congrArg String.data h
  rw [data_append_eq, data_append_eq] at hd
  have ht := List.append_cancel_left hd
  cases t
  cases u
  exact congrArg String.mk (by simpa using ht)


section Reach

variable {α : Type} [DecidableEq α]

lemma mem_stepR {E : List (α × α)} {s : List α} {x : α} :
    x ∈ stepR E s ↔ x ∈ s ∨ ∃ a, (a, x) ∈ E ∧ a ∈ s := by
  constructor
  · intro h
    rcases List.mem_append.mp h with h | h
    · exact Or.inl h
    · rcases List.mem_map.mp h with ⟨e, he, rfl⟩
      rcases List.mem_filter.mp he with ⟨heE, hdec⟩
      exact Or.inr ⟨e.1, by simpa using heE, of_decide_eq_true hdec⟩
  · rintro (h | ⟨a, haE, has⟩)
    · exact List.mem_append.mpr (Or.inl h)
    · exact List.mem_append.mpr (Or.inr (List.mem_map.mpr
        ⟨(a, x), List.mem_filter.mpr ⟨haE, decide_eq_true has⟩, rfl⟩))

lemma mem_stepR_of_mem {E : List (α × α)} {s : List α} {x : α}
    (h : x ∈ s) : x ∈ stepR E s :=
  mem_stepR.mpr (Or.inl h)

lemma root_mem_reachL (E : List (α × α)) (root : α) (n : Nat) :
    root ∈ reachL E root n := by
  induction n with
  | zero => simp [reachL]
  | succ n ih => exact mem_stepR_of_mem ih

lemma reachL_mono {E : List (α × α)} {root x : α} {m n : Nat}
    (hmn : m ≤ n) (h : x ∈ reachL E root m) : x ∈ reachL E root n := by
  induction n with
  | zero =>
    have : m = 0 := Nat.le_zero.mp hmn
    exact this ▸ h
  | succ n ih =>
    rcases Nat.lt_or_ge m (n + 1) with hlt | hge
    · exact mem_stepR_of_mem (ih (Nat.lt_succ_iff.mp hlt))
    · have : m = n + 1 := Nat.le_antisymm hmn hge
      exact this ▸ h

lemma stepR_mem_congr {E : List (α × α)} {s t : List α}
    (h : ∀ y, y ∈ s ↔ y ∈ t) (x : α) : x ∈ stepR E s ↔ x ∈ stepR E t := by
  rw [mem_stepR, mem_stepR]
  simp only [h]

lemma reaches_of_mem_reachL {E : List (α × α)} {root : α} :
    ∀ n x, x ∈ reachL E root n → Reaches E root x := by
  intro n
  induction n with
  | zero =>
    intro x hx
    have hx' : x = root := by simpa [reachL] using hx
    exact hx' ▸ Reaches.refl
  | succ n ih =>
    intro x hx
    rcases mem_stepR.mp hx with h | ⟨a, haE, ha⟩
    · exact ih x h
    · exact Reaches.tail (ih a ha) haE

lemma mem_reachS {E : List (α × α)} {root x : α} {n : Nat} :
    x ∈ reachS E root n ↔ x ∈ reachL E root n := List.mem_toFinset

lemma reachS_mono_succ (E : List (α × α)) (root : α) (n : Nat) :
    reachS E root n ⊆ reachS E root (n + 1) := by
  intro x hx
  exact mem_reachS.mpr (mem_stepR_of_mem (mem_reachS.mp hx))

lemma reachS_subset_univ (E : List (α × α)) (root : α) (n : Nat) :
    reachS E root n ⊆ (root :: E.map Prod.snd).toFinset := by
  induction n with
  | zero =>
    intro x hx
    have : x = root := by simpa [reachS, reachL] using hx
    simp [this]
  | succ n ih =>
    intro x hx
    rcases mem_stepR.mp (mem_reachS.mp hx) with h | ⟨a, haE, _⟩
    · exact ih (mem_reachS.mpr h)
    · have : x ∈ E.map Prod.snd := List.mem_map.mpr ⟨(a, x), haE, rfl⟩
      simp [this]

lemma reachS_saturate {E : List (α × α)} {root : α} {n : Nat}
    (h : reachS E root n = reachS E root (n + 1)) :
    ∀ m, n ≤ m → reachS E root m = reachS E root n := by
  intro m hm
  induction m with
  | zero =>
    have : n = 0 := Nat.le_zero.mp hm
    rw [this]
  | succ m ih =>
    rcases Nat.lt_or_ge n (m + 1) with hlt | hge
    · have hmn : n ≤ m := Nat.lt_succ_iff.mp hlt
      have hprev : reachS E root m = reachS E root n := ih hmn
      have hmemprev : ∀ y, y ∈ reachL E root m ↔ y ∈ reachL E root n := by
        intro y
        rw [← mem_reachS, ← mem_reachS, hprev]
      apply Finset.ext
      intro x
      have hx1 : x ∈ reachL E root (m + 1) ↔ x ∈ reachL E root (n + 1) :=
        stepR_mem_congr hmemprev x
      rw [mem_reachS, hx1, ← mem_reachS, ← h]
    · have : n = m + 1 := Nat.le_antisymm hm hge
      rw [this]

lemma exists_saturation (E : List (α × α)) (root : α) :
    ∃ n ≤ E.length, reachS E root n = reachS E root (n + 1) := by
  by_contra hcon
  push_neg at hcon
  have grow : ∀ n, n ≤ E.length + 1 → n + 1 ≤ (reachS E root n).card := by
    intro n
    induction n with
    | zero =>
      intro _
      have : root ∈ reachS E root 0 := mem_reachS.mpr (root_mem_reachL E root 0)
      exact Finset.card_pos.mpr ⟨root, this⟩
    | succ n ih =>
      intro hn
      have hn' : n ≤ E.length := Nat.lt_succ_iff.mp hn
      have hne := hcon n hn'
      have hss : reachS E root n ⊂ reachS E root (n + 1) :=
        (Finset.ssubset_iff_subset_ne).mpr ⟨reachS_mono_succ E root n, hne⟩
      have hlt := Finset.card_lt_card hss
      have := ih (Nat.le_of_lt hn)
      omega
  have h1 : E.length + 2 ≤ (reachS E root (E.length + 1)).card :=
    grow (E.length + 1) le_rfl
  have h2 : (reachS E root (E.length + 1)).card ≤
      (root :: E.map Prod.snd).toFinset.card :=
    Finset.card_le_card (reachS_subset_univ E root (E.length + 1))
  have h3 : (root :: E.map Prod.snd).toFinset.card ≤ E.length + 1 := by
    have := (root :: E.map Prod.snd).toFinset_card_le
    simpa using this
  omega

lemma mem_reachL_of_reaches {E : List (α × α)} {root x : α}
    (h : Reaches E root x) : x ∈ reachL E root (E.length + 1) := by
  obtain ⟨n, hn, hsat⟩ := exists_saturation E root
  have closed : ∀ y, Reaches E root y → y ∈ reachL E root n := by
    intro y hy
    induction hy with
    | refl => exact root_mem_reachL E root n
    | tail hr hE ih =>
      have hy1 : _ ∈ reachL E root (n + 1) := mem_stepR.mpr (Or.inr ⟨_, hE, ih⟩)
      have hy2 : _ ∈ reachS E root (n + 1) := mem_reachS.mpr hy1
      rw [← hsat] at hy2
      exact mem_reachS.mp hy2
  exact reachL_mono (by omega) (closed x h)

/-- Correctness of the §4.3 breadth-first search: it answers `true`
exactly when a path of declared edges connects `root` to `x`. -/
theorem reachableB_iff (E : List (α × α)) (root x : α) :
    reachableB E root x = true ↔ Reaches E root x := by
  constructor
  · intro h
    exact reaches_of_mem_reachL _ _ (of_decide_eq_true h)
  · intro h
    exact decide_eq_true (mem_reachL_of_reaches h)


end Reach

/-! ## C1: `isValid` accepts exactly the error-free reports -/

/-- C1: `isValid` returns `true` iff the report holds no error-severity
diagnostic; in particular a report of only warning- or info-severity
diagnostics counts as valid, so it does not block downstream consumers. -/
theorem isValid_iff_no_error (r : List Diagnostic) :
    (isValid r = true ↔ ∀ d ∈ r, d.severity ≠ Severity.error)
    ∧ ((∀ d ∈ r, d.severity = Severity.warning ∨ d.severity = Severity.info) →
        isValid r = true) := by
  have h1 : isValid r = true ↔ ∀ d ∈ r, d.severity ≠ Severity.error := by
    simp [isValid, List.any_eq_true]
  refine ⟨h1, fun h => h1.mpr fun d hd => ?_⟩
  rcases h d hd with h' | h' <;> simp [h']

/-- C1 witness: a report holding one warning is valid. -/
theorem isValid_iff_no_error_witness : isValid [warnDiag] = true :=
  (isValid_iff_no_error [warnDiag]).2 (by decide)

/-! ## C2: validation is deterministic -/

/-- C2: validation is a pure function of the model — two runs over the
same unchanged input produce identical diagnostic reports, order
included. -/
theorem validate_deterministic (m₁ m₂ : Model) (h : m₁ = m₂) :
    validate m₁ = validate m₂ :=
  congrArg validate h

/-- C2 witness: two runs over scenario 3's model agree. -/
theorem validate_deterministic_witness :
    modelAB = modelAB ∧ validate modelAB = validate modelAB :=
  ⟨rfl, validate_deterministic modelAB modelAB rfl⟩

/-! ## C7: the report is complete and sorted -/

/-- C7: every validation run returns the complete diagnostic list in one
shot — a permutation of everything the validators collected — and that
list is sorted by source location first and severity second. -/
theorem validate_sorted_complete (m : Model) :
    (validate m).Perm (collectDiags m) ∧ List.Sorted diagLE (validate m) :=
  ⟨List.perm_insertionSort diagLE (collectDiags m),
   List.sorted_insertionSort diagLE (collectDiags m)⟩

/-! ## C5: the `LargeAggregate` warning -/

lemma beq_code_false {p : DiagCode} {d : Diagnostic} (h : d.code ≠ p) :
    (d.code == p) = false :=
  beq_eq_false_iff_ne.mpr h

lemma filter_code_map_nil {β : Type} {l : List β} (f : β → Diagnostic)
    (p : DiagCode) (h : ∀ e, (f e).code ≠ p) :
    (l.map f).filter (fun d => d.code == p) = [] := by
  induction l with
  | nil => rfl
  | cons e t ih => simp [List.filter_cons, beq_code_false (h e), ih]

/-- Only the fourth chunk of `checkAggregate` can contribute a
`LargeAggregate` diagnostic, and it contributes exactly one exactly when
the aggregate contains more than 5 entities. -/
lemma filter_large_checkAggregate (c : ContextD) (a : AggregateD) :
    (checkAggregate c a).filter (fun d => d.code == DiagCode.LargeAggregate) =
      if 5 < a.contains.length then [mkLarge c a] else [] := by
  unfold checkAggregate
  simp only [List.filter_append]
  have h1 : (if isEntityB c a.root then [] else [mkInvalidRoot c a]).filter
      (fun d => d.code == DiagCode.LargeAggregate) = [] := by
    split <;> simp [mkInvalidRoot]
  have h2 : ((a.contains.filter fun e => !isEntityB c e).map
      (mkInvalidContained c a)).filter
        (fun d => d.code == DiagCode.LargeAggregate) = [] :=
    filter_code_map_nil _ _ (fun e => by simp [mkInvalidContained])
  have h3 : ((a.contains.filter fun e =>
      !reachableB (ctxEdges c) a.root e).map (mkUnreach c a)).filter
        (fun d => d.code == DiagCode.LargeAggregate) = [] :=
    filter_code_map_nil _ _ (fun e => by simp [mkUnreach])
  have h4 : (if decide (5 < a.contains.length) = true then [mkLarge c a]
      else []).filter (fun d => d.code == DiagCode.LargeAggregate) =
        if 5 < a.contains.length then [mkLarge c a] else [] := by
    split <;> simp_all [mkLarge]
  rw [h1, h2, h3]
  simpa using h4

/-- C5: validation warns `LargeAggregate` exactly on aggregates whose
`contains` list exceeds 5 entities — exactly one warning, never an
error — and scenario 4's aggregate of 6 distinct reachable entities gets
zero error-severity diagnostics and exactly that one warning. -/
theorem aggregate_large_warning_spec :
    (∀ (c : ContextD) (a : AggregateD),
      (checkAggregate c a).filter (fun d => d.code == DiagCode.LargeAggregate) =
        if 5 < a.contains.length then [mkLarge c a] else [])
    ∧ (mkLarge ctxSix aggSix).severity = Severity.warning
    ∧ (checkAggregate ctxSix aggSix).filter
        (fun d => d.severity == Severity.error) = []
    ∧ (checkAggregate ctxSix aggSix).filter
        (fun d => d.code == DiagCode.LargeAggregate) = [mkLarge ctxSix aggSix] :=
  ⟨filter_large_checkAggregate, rfl, by decide, by decide⟩

/-! ## C3: duplicate enum variants -/

lemma dupMsg_inj {a b : String} (h : dupMsg a = dupMsg b) : a = b :=
  string_append_cancel h

lemma filter_pDup_map_nil {β : Type} (n : String) (l : List β)
    (f : β → Diagnostic)
    (h : ∀ x, (f x).code ≠ DiagCode.DuplicateVariant) :
    (l.map f).filter (pDup n) = [] := by
  induction l with
  | nil => rfl
  | cons x t ih => simp [List.filter_cons, pDup, beq_code_false (h x), ih]

lemma dupDiags_cons_mem (cn en : String) (v : VariantD) (vs : List VariantD)
    (i : Nat) (seen : List String) (hm : v.name ∈ seen) :
    dupDiags cn en i seen (v :: vs) =
      mkDup cn en v.name i :: dupDiags cn en (i + 1) (v.name :: seen) vs := by
  simp [dupDiags, hm]

lemma dupDiags_cons_not_mem (cn en : String) (v : VariantD)
    (vs : List VariantD) (i : Nat) (seen : List String)
    (hm : v.name ∉ seen) :
    dupDiags cn en i seen (v :: vs) =
      dupDiags cn en (i + 1) (v.name :: seen) vs := by
  simp [dupDiags, hm]

lemma filter_pDup_dupDiags_nil (cn en n : String) :
    ∀ (vs : List VariantD) (i : Nat) (seen : List String),
      (∀ v ∈ vs, v.name ≠ n) →
      (dupDiags cn en i seen vs).filter (pDup n) = [] := by
  intro vs
  induction vs with
  | nil => intro i seen _; rfl
  | cons v t ih =>
    intro i seen hv
    have hvn : v.name ≠ n := hv v (List.mem_cons_self v t)
    have hmsg : ((mkDup cn en v.name i).message == dupMsg n) = false :=
      beq_eq_false_iff_ne.mpr (fun h => hvn (dupMsg_inj h))
    have ht := ih (i + 1) (v.name :: seen)
      (fun w hw => hv w (List.mem_cons_of_mem v hw))
    by_cases hm : v.name ∈ seen
    · have hstep : dupDiags cn en i seen (v :: t) =
          mkDup cn en v.name i ::
            dupDiags cn en (i + 1) (v.name :: seen) t := by
        simp [dupDiags, hm]
      have hp : pDup n (mkDup cn en v.name i) = false := by
        simp [pDup, hmsg]
      rw [hstep, List.filter_cons, hp]
      simpa using ht
    · have hstep : dupDiags cn en i seen (v :: t) =
          dupDiags cn en (i + 1) (v.name :: seen) t := by
        simp [dupDiags, hm]
      rw [hstep]
      exact ht

lemma dupDiags_eq_nil (cn en : String) :
    ∀ (vs : List VariantD) (i : Nat) (seen : List String),
      (∀ v ∈ vs, v.name ∉ seen) →
      (vs.map (fun v => v.name)).Nodup →
      dupDiags cn en i seen vs = [] := by
  intro vs
  induction vs with
  | nil => intro i seen _ _; rfl
  | cons v t ih =>
    intro i seen hdisj hnodup
    have hm : v.name ∉ seen := hdisj v (List.mem_cons_self v t)
    rw [List.map_cons] at hnodup
    have hnd := List.nodup_cons.mp hnodup
    have hdisj' : ∀ w ∈ t, w.name ∉ (v.name :: seen) := by
      intro w hw
      simp only [List.mem_cons]
      rintro (h | h)
      · exact hnd.1 (h ▸ List.mem_map.mpr ⟨w, hw, rfl⟩)
      · exact hdisj w (List.mem_cons_of_mem v hw) h
    have hstep : dupDiags cn en i seen (v :: t) =
        dupDiags cn en (i + 1) (v.name :: seen) t := by
      simp [dupDiags, hm]
    rw [hstep]
    exact ih (i + 1) (v.name :: seen) hdisj' hnd.2

lemma dupDiags_append (cn en : String) (xs ys : List VariantD) :
    ∀ (i : Nat) (seen : List String),
      dupDiags cn en i seen (xs ++ ys) =
        dupDiags cn en i seen xs ++
          dupDiags cn en (i + xs.length)
            (xs.reverse.map (fun v => v.name) ++ seen) ys := by
  induction xs with
  | nil => intro i seen; simp [dupDiags]
  | cons v t ih =>
    intro i seen
    simp only [List.cons_append, dupDiags, List.length_cons, List.append_eq]
    rw [ih, List.append_assoc]
    have e1 : i + 1 + t.length = i + (t.length + 1) := by omega
    have e2 : t.reverse.map (fun v => v.name) ++ (v.name :: seen) =
        (v :: t).reverse.map (fun v => v.name) ++ seen := by
      simp [List.reverse_cons, List.map_append]
    rw [e1, e2]

/-- C3: variant names are checked for pairwise uniqueness with
case-sensitive string equality — an enum whose variant names are
pairwise distinct strings gets no `DuplicateVariant` about any name —
and an enum declaring the name `n` exactly twice yields exactly one
`DuplicateVariant` diagnostic for `n`, located (occurrence index in the
`column` field) at the second occurrence. -/
theorem enum_duplicate_variant_spec (c : ContextD) (e : EnumD) (n : String)
    (pre mid post : List VariantD) (a b : VariantD)
    (hsplit : e.variants = pre ++ a :: (mid ++ b :: post))
    (ha : a.name = n) (hb : b.name = n)
    (hpre : ∀ v ∈ pre, v.name ≠ n) (hmid : ∀ v ∈ mid, v.name ≠ n)
    (hpost : ∀ v ∈ post, v.name ≠ n) :
    ((checkEnum c e).filter (pDup n) =
      [mkDup c.name e.name n (pre.length + 1 + mid.length)])
    ∧ (∀ (c' : ContextD) (e' : EnumD),
        (e'.variants.map (fun v => v.name)).Nodup →
          (checkEnum c' e').filter
            (fun d => d.code == DiagCode.DuplicateVariant) = []) := by
  constructor
  · unfold checkEnum
    have h1 : (if e.variants.isEmpty then [mkNoVariants c.name e.name]
        else []).filter (pDup n) = [] := by
      split <;> simp [mkNoVariants, pDup]
    have h3 : (payloadDiags c e).filter (pDup n) = [] := by
      unfold payloadDiags
      exact filter_pDup_map_nil n _ _ (fun v => by simp [mkUnknownPayload])
    have hseen1 : a.name ∉ (pre.reverse.map (fun v => v.name) ++
        ([] : List String)) := by
      rw [ha]
      intro hmem
      rcases List.mem_append.mp hmem with h | h
      · rcases List.mem_map.mp h with ⟨w, hw, hwn⟩
        exact hpre w (List.mem_reverse.mp hw) hwn
      · simp at h
    have hseen2 : b.name ∈ (mid.reverse.map (fun v => v.name) ++
        (a.name :: (pre.reverse.map (fun v => v.name) ++ []))) := by
      rw [hb, ← ha]
      exact List.mem_append.mpr (Or.inr (List.mem_cons_self _ _))
    rw [List.filter_append, List.filter_append, h1, h3, hsplit,
      dupDiags_append,
      dupDiags_cons_not_mem c.name e.name a _ _ _ hseen1,
      dupDiags_append,
      dupDiags_cons_mem c.name e.name b _ _ _ hseen2]
    have F1 := filter_pDup_dupDiags_nil c.name e.name n pre 0 [] hpre
    have F2 := filter_pDup_dupDiags_nil c.name e.name n mid
      (0 + pre.length + 1)
      (a.name :: (pre.reverse.map (fun v => v.name) ++ [])) hmid
    have F3 := filter_pDup_dupDiags_nil c.name e.name n post
      (0 + pre.length + 1 + mid.length + 1)
      (b.name :: (mid.reverse.map (fun v => v.name) ++
        (a.name :: (pre.reverse.map (fun v => v.name) ++ [])))) hpost
    have Fb : pDup n (mkDup c.name e.name b.name
        (0 + pre.length + 1 + mid.length)) = true := by
      simp [pDup, mkDup, hb]
    have F3n := filter_pDup_dupDiags_nil c.name e.name n post
      (pre.length + 1 + mid.length + 1)
      (n :: ((mid.map (fun v => v.name)).reverse ++
        (a.name :: (pre.map (fun v => v.name)).reverse))) hpost
    have Fbn : pDup n (mkDup c.name e.name n (pre.length + 1 + mid.length)) =
        true := by
      simp [pDup, mkDup]
    simp only [List.filter_append, List.filter_cons, F1, F2, F3, Fb, hb]
    simp [F3n, Fbn]
  · intro c' e' hnd
    unfold checkEnum
    simp only [List.filter_append]
    have h1 : (if e'.variants.isEmpty then [mkNoVariants c'.name e'.name]
        else []).filter (fun d => d.code == DiagCode.DuplicateVariant) = [] := by
      split <;> simp [mkNoVariants]
    have h2 : dupDiags c'.name e'.name 0 [] e'.variants = [] :=
      dupDiags_eq_nil c'.name e'.name e'.variants 0 [] (by simp) hnd
    have h3 : (payloadDiags c' e').filter
        (fun d => d.code == DiagCode.DuplicateVariant) = [] := by
      unfold payloadDiags
      exact filter_code_map_nil _ _ (fun v => by simp [mkUnknownPayload])
    simp [h1, h2, h3, mkNoVariants]

/-- C3 witness: scenario 2 — `enum Status = Pending | Pending` yields
exactly one `DuplicateVariant`, at occurrence index 1 (the second
occurrence). -/
theorem enum_duplicate_variant_spec_witness :
    (checkEnum ctxOrders enumStatus).filter (pDup "Pending") =
      [mkDup "Orders" "Status" "Pending" 1] := by
  have h := (enum_duplicate_variant_spec ctxOrders enumStatus "Pending"
    [] [] [] { name := "Pending", payload := none }
    { name := "Pending", payload := none }
    rfl rfl rfl (by simp) (by simp) (by simp)).1
  simpa [ctxOrders, enumStatus] using h

/-! ## C4: unreachable contained entities -/

lemma unreachMsg_inj {a b : String} (h : unreachMsg a = unreachMsg b) :
    a = b :=
  string_append_cancel h

/-- C4: a contained entity with no path of declared morphisms from the
aggregate root produces an `UnreachableContainedEntity` diagnostic, and
after adding any morphism that connects it (any extension under which a
path exists), re-validation no longer reports that entity. -/
theorem aggregate_unreachable_spec (c : ContextD) (a : AggregateD)
    (e : String) (he : e ∈ a.contains) :
    (¬ Reaches (ctxEdges c) a.root e →
      mkUnreach c a e ∈ checkAggregate c a)
    ∧ (∀ g : MorphismD,
        Reaches (ctxEdges (addMorphismD c g)) a.root e →
          mkUnreach (addMorphismD c g) a e ∉
            checkAggregate (addMorphismD c g) a) := by
  constructor
  · intro hNR
    have hbf : reachableB (ctxEdges c) a.root e = false :=
      Bool.eq_false_iff.mpr (fun h => hNR ((reachableB_iff _ _ _).mp h))
    have hmemf : e ∈ a.contains.filter
        (fun x => !reachableB (ctxEdges c) a.root x) :=
      List.mem_filter.mpr ⟨he, by simp [hbf]⟩
    have hmem : mkUnreach c a e ∈ (a.contains.filter
        (fun x => !reachableB (ctxEdges c) a.root x)).map (mkUnreach c a) :=
      List.mem_map.mpr ⟨e, hmemf, rfl⟩
    unfold checkAggregate
    simp only [List.mem_append]
    exact Or.inl (Or.inr hmem)
  · intro g hR hmem
    have hbt : reachableB (ctxEdges (addMorphismD c g)) a.root e = true :=
      (reachableB_iff _ _ _).mpr hR
    unfold checkAggregate at hmem
    rcases List.mem_append.mp hmem with h | h
    · rcases List.mem_append.mp h with h | h
      · rcases List.mem_append.mp h with h | h
        · have hEq : mkUnreach (addMorphismD c g) a e =
              mkInvalidRoot (addMorphismD c g) a := by
            revert h
            split
            · intro h
              simp at h
            · intro h
              simpa using h
          exact absurd (congrArg Diagnostic.code hEq)
            (by simp [mkUnreach, mkInvalidRoot])
        · rcases List.mem_map.mp h with ⟨x, _, hx⟩
          exact absurd (congrArg Diagnostic.code hx)
            (by simp [mkUnreach, mkInvalidContained])
      · rcases List.mem_map.mp h with ⟨x, hxf, hx⟩
        have hxe : x = e := unreachMsg_inj (congrArg Diagnostic.message hx)
        subst hxe
        have hflag := (List.mem_filter.mp hxf).2
        rw [hbt] at hflag
        simp at hflag
    · have hEq : mkUnreach (addMorphismD c g) a e =
          mkLarge (addMorphismD c g) a := by
        revert h
        split
        · intro h
          simpa using h
        · intro h
          simp at h
      exact absurd (congrArg Diagnostic.code hEq)
        (by simp [mkUnreach, mkLarge])

/-- C4 witness: with no morphisms, `Customer` is unreachable from
`Order` and the error fires; adding `customer: Order -> Customer` makes
it disappear on re-validation. -/
theorem aggregate_unreachable_spec_witness :
    mkUnreach ctxOrd aggOrd "Customer" ∈ checkAggregate ctxOrd aggOrd
    ∧ mkUnreach (addMorphismD ctxOrd morCustomer) aggOrd "Customer" ∉
        checkAggregate (addMorphismD ctxOrd morCustomer) aggOrd := by
  constructor
  · exact (aggregate_unreachable_spec ctxOrd aggOrd "Customer" (by decide)).1
      (fun h => absurd ((reachableB_iff _ _ _).mpr h) (by decide))
  · exact (aggregate_unreachable_spec ctxOrd aggOrd "Customer" (by decide)).2
      morCustomer (Reaches.tail Reaches.refl (by decide))

/-! ## C6: functor-law endpoint preservation in context maps -/

/-- C6: for a map `M: A → B` and a morphism mapping `f → g` with
`f : a1 → a2` declared in A and `g : b1 → b2` declared in B, the mapping
check passes exactly when the object mapping sends `a1` to `b1` and `a2`
to `b2`; each violated endpoint puts a `MorphismMappingEndpointMismatch`
naming the expected target and the actual mapped-target-so-far into the
map's diagnostics. -/
theorem contextmap_endpoint_spec (m : Model) (cm : ContextMapD)
    (A B : ContextD) (f g : MorphismD) (mm : MappingPair)
    (hA : lookupCtx m cm.source = some A) (hB : lookupCtx m cm.target = some B)
    (hmm : mm ∈ cm.morphismMappings)
    (hf : lookupMor A mm.src = some f) (hg : lookupMor B mm.tgt = some g) :
    (checkMorphMapping A B cm mm = [] ↔
      lookupMapping cm.objectMappings f.source = some g.source ∧
        lookupMapping cm.objectMappings f.target = some g.target)
    ∧ (lookupMapping cm.objectMappings f.source ≠ some g.source →
        mkMismatch cm mm g.source (lookupMapping cm.objectMappings f.source) ∈
          checkContextMap m cm)
    ∧ (lookupMapping cm.objectMappings f.target ≠ some g.target →
        mkMismatch cm mm g.target (lookupMapping cm.objectMappings f.target) ∈
          checkContextMap m cm) := by
  have hcheck : checkMorphMapping A B cm mm =
      (if lookupMapping cm.objectMappings f.source == some g.source then []
       else [mkMismatch cm mm g.source
         (lookupMapping cm.objectMappings f.source)])
      ++ (if lookupMapping cm.objectMappings f.target == some g.target then []
          else [mkMismatch cm mm g.target
            (lookupMapping cm.objectMappings f.target)]) := by
    unfold checkMorphMapping
    rw [hf, hg]
  have hlift : ∀ d, d ∈ checkMorphMapping A B cm mm →
      d ∈ checkContextMap m cm := by
    intro d hd
    unfold checkContextMap
    rw [hA, hB]
    simp only [List.mem_append]
    exact Or.inl (Or.inl (Or.inr (List.mem_flatMap.mpr ⟨mm, hmm, hd⟩)))
  refine ⟨?_, ?_, ?_⟩
  · rw [hcheck]
    constructor
    · intro h
      cases h1 : (lookupMapping cm.objectMappings f.source == some g.source) with
      | false => simp [h1] at h
      | true =>
        cases h2 : (lookupMapping cm.objectMappings f.target ==
            some g.target) with
        | false => simp [h1, h2] at h
        | true => exact ⟨by simpa using h1, by simpa using h2⟩
    · rintro ⟨h1, h2⟩
      simp [h1, h2]
  · intro hne
    apply hlift
    rw [hcheck]
    have hb : (lookupMapping cm.objectMappings f.source == some g.source) =
        false := beq_eq_false_iff_ne.mpr hne
    apply List.mem_append.mpr
    exact Or.inl (by simp [hb])
  · intro hne
    apply hlift
    rw [hcheck]
    have hb : (lookupMapping cm.objectMappings f.target == some g.target) =
        false := beq_eq_false_iff_ne.mpr hne
    apply List.mem_append.mpr
    exact Or.inr (by simp [hb])

/-- C6 witness: scenario 3 — `f: X → Z` in A, `g: Y → Q` in B, object
mapping `X → Y` only: the target endpoint check fails and the mismatch
diagnostic naming `Q` (expected) and the unmapped actual target is in
the report. -/
theorem contextmap_endpoint_spec_witness :
    mkMismatch cmAB { src := "f", tgt := "g" } "Q" none ∈
      checkContextMap modelAB cmAB := by
  have h := (contextmap_endpoint_spec modelAB cmAB ctxA ctxB
    (morD "f" "X" "Z") (morD "g" "Y" "Q") { src := "f", tgt := "g" }
    (by decide) (by decide) (by decide) (by decide) (by decide)).2.2
    (by decide)
  simpa using h

/-! ## C8–C10: the domain store's operations -/

namespace Store

lemma lookupKey_mem {β : Type} :
    ∀ {l : List (String × β)} {k : String} {v : β},
      lookupKey l k = some v → (k, v) ∈ l := by
  intro l
  induction l with
  | nil =>
    intro k v h
    simp [lookupKey] at h
  | cons p t ih =>
    intro k v h
    by_cases hp : p.1 = k
    · rw [lookupKey, if_pos hp] at h
      have hpv : p = (k, v) := by
        cases p
        cases h
        simp_all
      rw [← hpv]
      exact List.mem_cons_self p t
    · rw [lookupKey, if_neg hp] at h
      exact List.mem_cons_of_mem p (ih h)

lemma lookupKey_eraseKey_ne {β : Type} (l : List (String × β))
    {k k' : String} (h : k' ≠ k) :
    lookupKey (eraseKey l k) k' = lookupKey l k' := by
  induction l with
  | nil => rfl
  | cons p t ih =>
    by_cases hp : p.1 = k
    · have hpk' : p.1 ≠ k' := fun hh => h (hh ▸ hp)
      rw [eraseKey, if_pos hp, ih, lookupKey, if_neg hpk']
    · rw [eraseKey, if_neg hp]
      by_cases hpk : p.1 = k'
      · rw [lookupKey, if_pos hpk, lookupKey, if_pos hpk]
      · rw [lookupKey, if_neg hpk, lookupKey, if_neg hpk, ih]

lemma lookupKey_updateKey_self {β : Type} (l : List (String × β))
    (k : String) (v : β) (h : (lookupKey l k).isSome = true) :
    lookupKey (updateKey l k v) k = some v := by
  induction l with
  | nil => simp [lookupKey] at h
  | cons p t ih =>
    by_cases hp : p.1 = k
    · simp [updateKey, lookupKey, hp]
    · have h' : (lookupKey t k).isSome = true := by
        simpa [lookupKey, hp] using h
      simpa [updateKey, lookupKey, hp] using ih h'

lemma mem_updateKey {β : Type} {l : List (String × β)} {k : String}
    {v : β} {p : String × β} (h : p ∈ updateKey l k v) :
    p = (k, v) ∨ (p ∈ l ∧ p.1 ≠ k) := by
  rcases List.mem_map.mp h with ⟨q, hq, hfq⟩
  by_cases hqk : q.1 = k
  · left
    rw [← hfq, if_pos hqk]
  · right
    rw [← hfq, if_neg hqk]
    exact ⟨hq, hqk⟩

/-- C8: after `deleteNode(contextId, nodeId)` on a store whose
`contextId` exists, the affected context has no morphism whose
`sourceId` or `targetId` is the deleted node, the node is gone from the
selection, and the invariant "every morphism of a context references
only node ids present in that context" is preserved. -/
theorem deleteNode_spec (s : DomainState) (contextId nodeId : String)
    (hc : (lookupKey s.contexts contextId).isSome = true) :
    (∀ ctx, lookupKey (deleteNode s contextId nodeId).contexts contextId =
        some ctx →
      ∀ m ∈ ctx.morphisms, m.sourceId ≠ nodeId ∧ m.targetId ≠ nodeId)
    ∧ nodeId ∉ (deleteNode s contextId nodeId).selectedNodeIds
    ∧ (morphismsConsistent s →
        morphismsConsistent (deleteNode s contextId nodeId)) := by
  rcases Option.isSome_iff_exists.mp hc with ⟨context, hctx⟩
  have hdel : deleteNode s contextId nodeId =
      { s with
        contexts := updateKey s.contexts contextId
          { context with
            nodes := eraseKey context.nodes nodeId,
            morphisms := context.morphisms.filter
              (fun m => !(m.sourceId == nodeId) && !(m.targetId == nodeId)) },
        selectedNodeIds := s.selectedNodeIds.filter
          (fun i => !(i == nodeId)) } := by
    unfold deleteNode
    rw [hctx]
  refine ⟨?_, ?_, ?_⟩
  · intro ctx hctx' m hm
    rw [hdel] at hctx'
    rw [lookupKey_updateKey_self s.contexts contextId _ hc] at hctx'
    have hEq := Option.some.inj hctx'
    rw [← hEq] at hm
    have hflag := (List.mem_filter.mp hm).2
    simpa [Bool.and_eq_true, Bool.not_eq_true', beq_eq_false_iff_ne]
      using hflag
  · rw [hdel]
    intro hmem
    have hflag := (List.mem_filter.mp hmem).2
    simp at hflag
  · intro hinv p hp m hm
    rw [hdel] at hp
    rcases mem_updateKey hp with hpe | ⟨hpl, hpne⟩
    · subst hpe
      have hm' : m ∈ context.morphisms.filter
          (fun m => !(m.sourceId == nodeId) && !(m.targetId == nodeId)) := hm
      have hmf := List.mem_filter.mp hm'
      have hflags : m.sourceId ≠ nodeId ∧ m.targetId ≠ nodeId := by
        simpa [Bool.and_eq_true, Bool.not_eq_true', beq_eq_false_iff_ne]
          using hmf.2
      have horig := hinv (contextId, context) (lookupKey_mem hctx) m hmf.1
      constructor
      · show (lookupKey (eraseKey context.nodes nodeId) m.sourceId).isSome
          = true
        rw [lookupKey_eraseKey_ne context.nodes hflags.1]
        exact horig.1
      · show (lookupKey (eraseKey context.nodes nodeId) m.targetId).isSome
          = true
        rw [lookupKey_eraseKey_ne context.nodes hflags.2]
        exact horig.2
    · exact hinv p hpl m hm

/-- C8 witness: deleting node `n2` of context `c1` removes the morphism
touching it and takes it out of the selection. -/
theorem deleteNode_spec_witness :
    (lookupKey stateW.contexts "c1").isSome = true
    ∧ "n2" ∉ (deleteNode stateW "c1" "n2").selectedNodeIds :=
  ⟨by decide, (deleteNode_spec stateW "c1" "n2" (by decide)).2.1⟩

/-- C9: after `deleteContext(contextId)`, no context map references the
deleted context as source or target, and (whenever the active-context
invariant held before) `activeContextId` is `null` or the id of a
context still in the store. -/
theorem deleteContext_spec (s : DomainState) (contextId : String)
    (hact : activeConsistent s) :
    (∀ m ∈ (deleteContext s contextId).contextMaps,
        m.sourceContextId ≠ contextId ∧ m.targetContextId ≠ contextId)
    ∧ activeConsistent (deleteContext s contextId) := by
  constructor
  · intro m hm
    have hm' : m ∈ s.contextMaps.filter
        (fun m => !(m.sourceContextId == contextId) &&
          !(m.targetContextId == contextId)) := hm
    have hflag := (List.mem_filter.mp hm').2
    simpa [Bool.and_eq_true, Bool.not_eq_true', beq_eq_false_iff_ne]
      using hflag
  · intro a ha
    have ha' : (if s.activeContextId = some contextId
        then ((eraseKey s.contexts contextId).map Prod.fst).head?
        else s.activeContextId) = some a := ha
    show (lookupKey (eraseKey s.contexts contextId) a).isSome = true
    by_cases hcond : s.activeContextId = some contextId
    · rw [if_pos hcond] at ha'
      cases hl : eraseKey s.contexts contextId with
      | nil =>
        rw [hl] at ha'
        simp at ha'
      | cons p t =>
        rw [hl] at ha'
        have hpa : p.1 = a := by simpa using ha'
        simp [lookupKey, hpa]
    · rw [if_neg hcond] at ha'
      have hne : a ≠ contextId := fun h => hcond (h ▸ ha')
      rw [lookupKey_eraseKey_ne s.contexts hne]
      exact hact a ha'

/-- C9 witness: deleting context `c2` drops the map touching it and
leaves the active context pointing at the still-existing `c1`. -/
theorem deleteContext_spec_witness :
    (∀ m ∈ (deleteContext stateW "c2").contextMaps,
        m.sourceContextId ≠ "c2" ∧ m.targetContextId ≠ "c2")
    ∧ activeConsistent (deleteContext stateW "c2") :=
  deleteContext_spec stateW "c2" (by
    intro a ha
    injection ha with h
    rw [← h]
    decide)

/-- C10: `addField` on a node that is missing or not of kind
`entity`/`value`, and `addVariant` on a node that is missing or not of
kind `enum`, leave the store's `contexts` state unchanged. -/
theorem addField_addVariant_frame (s : DomainState)
    (contextId nodeId : String) (f : FieldInput) (v : VariantInput)
    (fid vid : String) :
    ((∀ e, lookupNodeEntry s contextId nodeId = some e →
        isFieldNode e.node = false) →
      (addField s contextId nodeId f fid).contexts = s.contexts)
    ∧ ((∀ e, lookupNodeEntry s contextId nodeId = some e →
        isEnumNode e.node = false) →
      (addVariant s contextId nodeId v vid).contexts = s.contexts) := by
  constructor
  · intro h
    unfold addField
    split
    · rfl
    next context heqc =>
      split
      · rfl
      next entry heqn =>
        have he : lookupNodeEntry s contextId nodeId = some entry := by
          unfold lookupNodeEntry
          rw [heqc]
          exact heqn
        have hff := h entry he
        split
        next nm fs heqnode =>
          rw [heqnode] at hff
          simp [isFieldNode] at hff
        next nm fs heqnode =>
          rw [heqnode] at hff
          simp [isFieldNode] at hff
        next heqnode =>
          rfl
  · intro h
    unfold addVariant
    split
    · rfl
    next context heqc =>
      split
      · rfl
      next entry heqn =>
        have he : lookupNodeEntry s contextId nodeId = some entry := by
          unfold lookupNodeEntry
          rw [heqc]
          exact heqn
        have hff := h entry he
        split
        next nm vs heqnode =>
          rw [heqnode] at hff
          simp [isEnumNode] at hff
        next heqnode =>
          rfl

/-- C10 witness: `addField` on the enum node `n3` and `addVariant` on
the entity node `n1` both leave `contexts` unchanged. -/
theorem addField_addVariant_frame_witness :
    (addField stateW "c1" "n3"
      { name := "f", type := "String", optional := false } "fid").contexts =
        stateW.contexts
    ∧ (addVariant stateW "c1" "n1"
        { name := "V", payload := none } "vid").contexts =
          stateW.contexts := by
  constructor
  · apply (addField_addVariant_frame stateW "c1" "n3"
      { name := "f", type := "String", optional := false }
      { name := "V", payload := none } "fid" "vid").1
    intro e he
    have h3 : lookupNodeEntry stateW "c1" "n3" = some nodeStatus := by decide
    rw [h3] at he
    injection he with he'
    rw [← he']
    rfl
  · apply (addField_addVariant_frame stateW "c1" "n1"
      { name := "f", type := "String", optional := false }
      { name := "V", payload := none } "fid" "vid").2
    intro e he
    have h1 : lookupNodeEntry stateW "c1" "n1" = some nodeOrder := by decide
    rw [h1] at he
    injection he with he'
    rw [← he']
    rfl

end Store

end SketchDDD
